import Mathlib

/-!
# Verification of the udisks Linux provider reconciliation engine

Shallow embedding of `src/udiskslinuxprovider.c`: the provider owns a hash
table `sysfs_to_block` mapping sysfs paths to `UDisksLinuxBlock` objects and
keeps it synchronized with the D-Bus object registry as uevents arrive.

The hash table is embedded as an association list with the GHashTable
operations (`lookup`, `insert` which replaces, `remove` which reports whether
the key was found).  The externally observable calls of the handler
(object construction, registry export/unexport, object update, the map
mutations and the `g_warn_if_fail` failure branch) are recorded in order in an
effect trace, so that statement order inside the handler is visible to
theorems.
-/

/-- A udev device snapshot; the handler only reads its sysfs path
(`g_udev_device_get_sysfs_path`). -/
structure GUdevDevice where
  sysfs_path : String
deriving DecidableEq, Repr

/-- Modelled from the spec: a `UDisksLinuxBlock` managed object
(`udiskslinuxblock.c` is not part of the given sources).  Per the spec's
Managed Device Object contract it carries an opaque handle (`objId`,
distinguishing distinct constructions) and the registry object path under
which it is exported, derived from the device identity it was constructed
from. -/
structure UDisksLinuxBlock where
  objId : Nat
  objectPath : String
deriving DecidableEq, Repr

/-- Modelled from the spec: `udisks_linux_block_new (daemon, device)`
constructs a fresh managed object for `device`; its registry object path is
derived from the device's identity. -/
def udisks_linux_block_new (freshId : Nat) (device : GUdevDevice) : UDisksLinuxBlock :=
  { objId := freshId, objectPath := device.sysfs_path }

/-- Association-list embedding of the provider's `GHashTable`
(`g_str_hash`/`g_str_equal`, keys are sysfs paths). -/
abbrev SysfsTable := List (String × UDisksLinuxBlock)

/-- `g_hash_table_lookup`. -/
def tableLookup (t : SysfsTable) (k : String) : Option UDisksLinuxBlock :=
  match t with
  | [] => none
  | (k', v) :: rest => if k' = k then some v else tableLookup rest k

/-- `g_hash_table_insert`: replaces the value if the key is present,
otherwise adds the entry. -/
def tableInsert (t : SysfsTable) (k : String) (v : UDisksLinuxBlock) : SysfsTable :=
  match t with
  | [] => [(k, v)]
  | (k', v') :: rest =>
      if k' = k then (k, v) :: rest else (k', v') :: tableInsert rest k v

/-- `g_hash_table_remove`: drops the entry for `k` and reports whether it was
found. -/
def tableRemove (t : SysfsTable) (k : String) : SysfsTable × Bool :=
  match t with
  | [] => ([], false)
  | (k', v) :: rest =>
      if k' = k then (rest, true)
      else
        let r := tableRemove rest k
        ((k', v) :: r.1, r.2)

/-- The keys currently stored in the table. -/
def keys (t : SysfsTable) : List String := t.map Prod.fst

/-- One externally observable step of the handler, in program order. -/
inductive Effect where
  /-- `udisks_linux_block_new (daemon, device)` returned `b`. -/
  | constructBlock (b : UDisksLinuxBlock) (d : GUdevDevice)
  /-- `g_dbus_object_manager_export` of the object at path `p`. -/
  | exportCall (p : String)
  /-- `g_dbus_object_manager_unexport` of the object at path `p`. -/
  | unexportCall (p : String)
  /-- `udisks_linux_block_uevent (b, action, d)`. -/
  | updateCall (b : UDisksLinuxBlock) (action : String) (d : GUdevDevice)
  /-- `g_hash_table_insert (sysfs_to_block, p, b)`. -/
  | insertEntry (p : String) (b : UDisksLinuxBlock)
  /-- `g_hash_table_remove (sysfs_to_block, p)`. -/
  | removeEntry (p : String)
  /-- The `g_warn_if_fail` on the remove path fired. -/
  | warnRemoveFailed
deriving DecidableEq, Repr

/-- Provider state: the `sysfs_to_block` table, the set of object paths
currently exported on the D-Bus object manager (the registry), and the
fresh-handle counter used to distinguish constructed block objects. -/
structure ProviderState where
  sysfs_to_block : SysfsTable
  registry : List String
  nextId : Nat
deriving DecidableEq, Repr

/-- The state of a freshly constructed provider, before any uevent:
empty table, nothing exported. -/
def initialState : ProviderState :=
  { sysfs_to_block := [], registry := [], nextId := 0 }

/-- `udisks_linux_provider_handle_uevent`, translated statement by statement.
Returns the successor state together with the ordered trace of observable
calls made during the invocation. -/
def udisks_linux_provider_handle_uevent (st : ProviderState) (action : String)
    (device : GUdevDevice) : ProviderState × List Effect :=
  let sysfs_path := device.sysfs_path
  if action = "remove" then
    match tableLookup st.sysfs_to_block sysfs_path with
    | some block =>
        let registry' := st.registry.erase block.objectPath
        let r := tableRemove st.sysfs_to_block sysfs_path
        ({ st with registry := registry', sysfs_to_block := r.1 },
         [Effect.unexportCall block.objectPath, Effect.removeEntry sysfs_path] ++
           (if r.2 then [] else [Effect.warnRemoveFailed]))
    | none => (st, [])
  else
    match tableLookup st.sysfs_to_block sysfs_path with
    | some block => (st, [Effect.updateCall block action device])
    | none =>
        let block := udisks_linux_block_new st.nextId device
        let registry' := block.objectPath :: st.registry
        let table' := tableInsert st.sysfs_to_block sysfs_path block
        ({ st with sysfs_to_block := table', registry := registry',
                   nextId := st.nextId + 1 },
         [Effect.constructBlock block device, Effect.exportCall block.objectPath,
          Effect.insertEntry sysfs_path block])

/-- Deliver a finite sequence of `(action, device)` uevents one at a time,
accumulating the effect traces in order. -/
def runEvents (st : ProviderState) : List (String × GUdevDevice) →
    ProviderState × List Effect
  | [] => (st, [])
  | (a, d) :: rest =>
      let r := udisks_linux_provider_handle_uevent st a d
      let r' := runEvents r.1 rest
      (r'.1, r.2 ++ r'.2)

/-- `udisks_linux_provider_constructed`: seed the provider by handling one
synthetic `"add"` uevent per enumerated block device. -/
def udisks_linux_provider_constructed (devices : List GUdevDevice) :
    ProviderState × List Effect :=
  runEvents initialState (devices.map (fun d => ("add", d)))

/-- The daemon handle passed to `udisks_linux_provider_new`; `is_daemon`
models the `UDISKS_IS_DAEMON` type check. -/
structure UDisksDaemon where
  is_daemon : Bool
deriving DecidableEq, Repr

/-- `udisks_linux_provider_new`: `g_return_val_if_fail (UDISKS_IS_DAEMON
(daemon), NULL)`, then `g_object_new`, whose `constructed` hook seeds the
provider from the device enumeration (here a parameter standing for the
device feed). -/
def udisks_linux_provider_new (daemon : UDisksDaemon)
    (enumeration : List GUdevDevice) : Option ProviderState :=
  if daemon.is_daemon then some (udisks_linux_provider_constructed enumeration).1
  else none

/-! ## Lemmas about the hash-table embedding -/

@[simp] theorem keys_nil : keys ([] : SysfsTable) = [] := rfl

@[simp] theorem keys_cons (k : String) (v : UDisksLinuxBlock) (t : SysfsTable) :
    keys ((k, v) :: t) = k :: keys t := rfl

theorem tableLookup_eq_none_iff (t : SysfsTable) (k : String) :
    tableLookup t k = none ↔ k ∉ keys t := by
  induction t with
  | nil => simp [tableLookup, keys]
  | cons hd tl ih =>
      obtain ⟨k', v⟩ := hd
      by_cases h : k' = k
      · subst h; simp [tableLookup, keys]
      · simp [tableLookup, keys, h, ih, Ne.symm h]

theorem tableLookup_mem {t : SysfsTable} {k : String} {b : UDisksLinuxBlock}
    (h : tableLookup t k = some b) : (k, b) ∈ t := by
  induction t with
  | nil => simp [tableLookup] at h
  | cons hd tl ih =>
      obtain ⟨k', v⟩ := hd
      by_cases hk : k' = k
      · subst hk
        simp [tableLookup] at h
        simp [h]
      · simp [tableLookup, hk] at h
        exact List.mem_cons_of_mem _ (ih h)

theorem mem_keys_of_lookup {t : SysfsTable} {k : String} {b : UDisksLinuxBlock}
    (h : tableLookup t k = some b) : k ∈ keys t := by
  have := tableLookup_mem h
  exact List.mem_map_of_mem Prod.fst this

theorem tableInsert_of_not_mem {t : SysfsTable} {k : String}
    (v : UDisksLinuxBlock) (h : k ∉ keys t) : tableInsert t k v = t ++ [(k, v)] := by
  induction t with
  | nil => simp [tableInsert]
  | cons hd tl ih =>
      obtain ⟨k', v'⟩ := hd
      rw [keys_cons, List.mem_cons] at h
      push_neg at h
      simp [tableInsert, Ne.symm h.1, ih h.2]

theorem tableLookup_tableInsert_self (t : SysfsTable) (k : String)
    (v : UDisksLinuxBlock) : tableLookup (tableInsert t k v) k = some v := by
  induction t with
  | nil => simp [tableInsert, tableLookup]
  | cons hd tl ih =>
      obtain ⟨k', v'⟩ := hd
      by_cases h : k' = k
      · subst h; simp [tableInsert, tableLookup]
      · simp [tableInsert, tableLookup, h, ih]

theorem tableLookup_tableInsert_ne (t : SysfsTable) {p k : String}
    (v : UDisksLinuxBlock) (h : p ≠ k) :
    tableLookup (tableInsert t k v) p = tableLookup t p := by
  induction t with
  | nil => simp [tableInsert, tableLookup, Ne.symm h]
  | cons hd tl ih =>
      obtain ⟨k', v'⟩ := hd
      by_cases hk : k' = k
      · subst hk
        simp [tableInsert, tableLookup, Ne.symm h]
      · by_cases hp : k' = p
        · subst hp; simp [tableInsert, tableLookup, hk]
        · simp [tableInsert, tableLookup, hk, hp, ih]

theorem tableRemove_found_iff (t : SysfsTable) (k : String) :
    (tableRemove t k).2 = true ↔ k ∈ keys t := by
  induction t with
  | nil => simp [tableRemove, keys]
  | cons hd tl ih =>
      obtain ⟨k', v⟩ := hd
      by_cases h : k' = k
      · subst h; simp [tableRemove, keys]
      · simp [tableRemove, keys, h, ih, Ne.symm h]

theorem mem_of_mem_tableRemove {t : SysfsTable} {k : String} {pb : String × UDisksLinuxBlock}
    (h : pb ∈ (tableRemove t k).1) : pb ∈ t := by
  induction t with
  | nil => simp [tableRemove] at h
  | cons hd tl ih =>
      obtain ⟨k', v⟩ := hd
      by_cases hk : k' = k
      · subst hk
        simp [tableRemove] at h
        exact List.mem_cons_of_mem _ h
      · simp [tableRemove, hk] at h
        rcases h with h | h
        · simp [h]
        · exact List.mem_cons_of_mem _ (ih h)

theorem mem_keys_tableRemove {t : SysfsTable} {k p : String}
    (hnd : (keys t).Nodup) :
    p ∈ keys (tableRemove t k).1 ↔ p ∈ keys t ∧ p ≠ k := by
  induction t with
  | nil => simp [tableRemove]
  | cons hd tl ih =>
      obtain ⟨k', v⟩ := hd
      rw [keys_cons, List.nodup_cons] at hnd
      by_cases hk : k' = k
      · subst hk
        simp only [tableRemove, if_pos rfl, keys_cons, List.mem_cons]
        constructor
        · intro hp
          exact ⟨Or.inr hp, fun he => hnd.1 (he ▸ hp)⟩
        · rintro ⟨hp | hp, hpk⟩
          · exact absurd hp hpk
          · exact hp
      · simp only [tableRemove, if_neg hk, keys_cons, List.mem_cons]
        rw [ih hnd.2]
        constructor
        · rintro (rfl | ⟨hp, hpk⟩)
          · exact ⟨Or.inl rfl, hk⟩
          · exact ⟨Or.inr hp, hpk⟩
        · rintro ⟨hp | hp, hpk⟩
          · exact Or.inl hp
          · exact Or.inr ⟨hp, hpk⟩

theorem tableLookup_tableRemove_ne (t : SysfsTable) {p k : String} (h : p ≠ k) :
    tableLookup (tableRemove t k).1 p = tableLookup t p := by
  induction t with
  | nil => simp [tableRemove]
  | cons hd tl ih =>
      obtain ⟨k', v⟩ := hd
      by_cases hk : k' = k
      · subst hk
        simp [tableRemove, tableLookup, Ne.symm h]
      · by_cases hp : k' = p
        · subst hp; simp [tableRemove, tableLookup, hk]
        · simp [tableRemove, tableLookup, hk, hp, ih]

theorem keys_tableRemove_sublist (t : SysfsTable) (k : String) :
    List.Sublist (keys (tableRemove t k).1) (keys t) := by
  induction t with
  | nil => simp [tableRemove]
  | cons hd tl ih =>
      obtain ⟨k', v⟩ := hd
      by_cases hk : k' = k
      · subst hk
        simp only [tableRemove, if_pos rfl, keys_cons]
        exact (List.Sublist.refl _).cons _
      · simp only [tableRemove, if_neg hk, keys_cons]
        exact ih.cons₂ _

theorem keys_append (t₁ t₂ : SysfsTable) : keys (t₁ ++ t₂) = keys t₁ ++ keys t₂ :=
  List.map_append _ _ _

/-! ## The reachable-state invariant

`goodState` bundles the facts that hold in every state the provider can
actually reach: the table has no duplicate keys, the registry has no
duplicate paths, every stored block is exported under its own key, and the
key set coincides with the registry (the spec's map/registry consistency
invariant). -/

def goodState (st : ProviderState) : Prop :=
  (keys st.sysfs_to_block).Nodup ∧ st.registry.Nodup ∧
  (∀ pb ∈ st.sysfs_to_block, (Prod.snd pb).objectPath = pb.1) ∧
  (∀ p ∈ keys st.sysfs_to_block, p ∈ st.registry) ∧
  (∀ p ∈ st.registry, p ∈ keys st.sysfs_to_block)

instance (st : ProviderState) : Decidable (goodState st) := by
  unfold goodState; infer_instance

/-! ## Branch-shape lemmas for the handler -/

theorem handle_uevent_remove_found (st : ProviderState) (d : GUdevDevice)
    {b : UDisksLinuxBlock}
    (hl : tableLookup st.sysfs_to_block d.sysfs_path = some b) :
    udisks_linux_provider_handle_uevent st "remove" d =
      ({ st with registry := st.registry.erase b.objectPath,
                 sysfs_to_block := (tableRemove st.sysfs_to_block d.sysfs_path).1 },
       [Effect.unexportCall b.objectPath, Effect.removeEntry d.sysfs_path] ++
         (if (tableRemove st.sysfs_to_block d.sysfs_path).2 then []
          else [Effect.warnRemoveFailed])) := by
  simp [udisks_linux_provider_handle_uevent, hl]

theorem handle_uevent_remove_absent (st : ProviderState) (d : GUdevDevice)
    (hl : tableLookup st.sysfs_to_block d.sysfs_path = none) :
    udisks_linux_provider_handle_uevent st "remove" d = (st, []) := by
  simp [udisks_linux_provider_handle_uevent, hl]

theorem handle_uevent_else_found (st : ProviderState) {a : String} (d : GUdevDevice)
    {b : UDisksLinuxBlock} (ha : a ≠ "remove")
    (hl : tableLookup st.sysfs_to_block d.sysfs_path = some b) :
    udisks_linux_provider_handle_uevent st a d = (st, [Effect.updateCall b a d]) := by
  simp [udisks_linux_provider_handle_uevent, ha, hl]

theorem handle_uevent_else_absent (st : ProviderState) {a : String} (d : GUdevDevice)
    (ha : a ≠ "remove")
    (hl : tableLookup st.sysfs_to_block d.sysfs_path = none) :
    udisks_linux_provider_handle_uevent st a d =
      ({ st with sysfs_to_block := tableInsert st.sysfs_to_block d.sysfs_path
                   (udisks_linux_block_new st.nextId d),
                 registry := d.sysfs_path :: st.registry,
                 nextId := st.nextId + 1 },
       [Effect.constructBlock (udisks_linux_block_new st.nextId d) d,
        Effect.exportCall d.sysfs_path,
        Effect.insertEntry d.sysfs_path (udisks_linux_block_new st.nextId d)]) := by
  simp [udisks_linux_provider_handle_uevent, ha, hl, udisks_linux_block_new]

/-! ## Preservation of the invariant -/

theorem handle_uevent_goodState (st : ProviderState) (a : String) (d : GUdevDevice)
    (h : goodState st) :
    goodState (udisks_linux_provider_handle_uevent st a d).1 := by
  obtain ⟨h1, h2, h3, h4, h5⟩ := h
  by_cases ha : a = "remove"
  · subst ha
    cases hl : tableLookup st.sysfs_to_block d.sysfs_path with
    | none =>
        rw [handle_uevent_remove_absent st d hl]
        exact ⟨h1, h2, h3, h4, h5⟩
    | some b =>
        rw [handle_uevent_remove_found st d hl]
        have hbp : b.objectPath = d.sysfs_path := h3 _ (tableLookup_mem hl)
        simp only [goodState]
        refine ⟨?_, ?_, ?_, ?_, ?_⟩
        · exact h1.sublist (keys_tableRemove_sublist _ _)
        · exact h2.erase _
        · exact fun pb hpb => h3 pb (mem_of_mem_tableRemove hpb)
        · intro p hp
          rw [mem_keys_tableRemove h1] at hp
          rw [hbp, h2.mem_erase_iff]
          exact ⟨hp.2, h4 p hp.1⟩
        · intro p hp
          rw [hbp, h2.mem_erase_iff] at hp
          rw [mem_keys_tableRemove h1]
          exact ⟨h5 p hp.2, hp.1⟩
  · cases hl : tableLookup st.sysfs_to_block d.sysfs_path with
    | some b =>
        rw [handle_uevent_else_found st d ha hl]
        exact ⟨h1, h2, h3, h4, h5⟩
    | none =>
        rw [handle_uevent_else_absent st d ha hl]
        have hkabs : d.sysfs_path ∉ keys st.sysfs_to_block :=
          (tableLookup_eq_none_iff _ _).mp hl
        have hreg : d.sysfs_path ∉ st.registry := fun hr => hkabs (h5 _ hr)
        simp only [goodState]
        refine ⟨?_, ?_, ?_, ?_, ?_⟩
        · show (keys (tableInsert st.sysfs_to_block d.sysfs_path
            (udisks_linux_block_new st.nextId d))).Nodup
          rw [tableInsert_of_not_mem _ hkabs, keys_append]
          simp [List.nodup_append, h1, hkabs]
        · exact List.nodup_cons.mpr ⟨hreg, h2⟩
        · intro pb hpb
          rw [tableInsert_of_not_mem _ hkabs, List.mem_append] at hpb
          rcases hpb with hpb | hpb
          · exact h3 pb hpb
          · simp only [List.mem_singleton] at hpb
            subst hpb
            rfl
        · intro p hp
          rw [tableInsert_of_not_mem _ hkabs, keys_append, List.mem_append] at hp
          rcases hp with hp | hp
          · exact List.mem_cons_of_mem _ (h4 p hp)
          · simp only [keys_cons, keys_nil, List.mem_singleton] at hp
            exact hp ▸ List.mem_cons_self _ _
        · intro p hp
          show p ∈ keys (tableInsert st.sysfs_to_block d.sysfs_path
            (udisks_linux_block_new st.nextId d))
          rw [tableInsert_of_not_mem _ hkabs, keys_append]
          rcases List.mem_cons.mp hp with hp | hp
          · subst hp
            simp
          · exact List.mem_append_left _ (h5 p hp)

theorem runEvents_goodState (evs : List (String × GUdevDevice)) (st : ProviderState)
    (h : goodState st) : goodState (runEvents st evs).1 := by
  induction evs generalizing st with
  | nil => exact h
  | cons ev rest ih =>
      obtain ⟨a, d⟩ := ev
      exact ih _ (handle_uevent_goodState st a d h)

theorem initialState_goodState : goodState initialState := by
  refine ⟨?_, ?_, ?_, ?_, ?_⟩ <;> simp [initialState]

/-! ## Effect classifiers -/

/-- Is this effect a registry export call (of any path)? -/
def isExportCall : Effect → Bool
  | Effect.exportCall _ => true
  | _ => false

/-- Is this effect an object construction (of any device)? -/
def isConstructCall : Effect → Bool
  | Effect.constructBlock _ _ => true
  | _ => false

/-- Is this effect a registry export call of path `p`? -/
def isExportFor (p : String) : Effect → Bool
  | Effect.exportCall q => q = p
  | _ => false

/-- Is this effect the construction of a block for the device at path `p`? -/
def isConstructFor (p : String) : Effect → Bool
  | Effect.constructBlock _ d => d.sysfs_path = p
  | _ => false

/-- Is this effect the map insertion of an entry under key `p`? -/
def isInsertFor (p : String) : Effect → Bool
  | Effect.insertEntry q _ => q = p
  | _ => false

/-! ## Claim C1 -/

/-- C1: for every finite sequence of interleaved add/change/remove uevents
processed from the freshly constructed (empty) provider, after each event
completes the set of sysfs paths present in `sysfs_to_block` equals the set
of object paths currently exported on the object manager.  (Every prefix of a
sequence is itself a sequence, so quantifying over all finite sequences
covers the state after each intermediate event.) -/
theorem map_and_registry_never_diverge (evs : List (String × GUdevDevice)) (p : String) :
    p ∈ keys (runEvents initialState evs).1.sysfs_to_block ↔
      p ∈ (runEvents initialState evs).1.registry := by
  have h := runEvents_goodState evs initialState initialState_goodState
  exact ⟨fun hp => h.2.2.2.1 p hp, fun hp => h.2.2.2.2 p hp⟩

/-! ## Claim C4 -/

/-- C4: handling a remove uevent for a sysfs path present in the map first
issues the registry unexport of the associated block object and then the map
removal (in that trace order, with the `g_warn_if_fail` branch silent); on
return the path is absent from both the map and the registry. -/
theorem remove_present_unexports_then_removes (st : ProviderState) (d : GUdevDevice)
    (b : UDisksLinuxBlock) (hg : goodState st)
    (hl : tableLookup st.sysfs_to_block d.sysfs_path = some b) :
    (udisks_linux_provider_handle_uevent st "remove" d).2 =
      [Effect.unexportCall b.objectPath, Effect.removeEntry d.sysfs_path] ∧
    d.sysfs_path ∉ keys (udisks_linux_provider_handle_uevent st "remove" d).1.sysfs_to_block ∧
    d.sysfs_path ∉ (udisks_linux_provider_handle_uevent st "remove" d).1.registry := by
  obtain ⟨h1, h2, h3, h4, h5⟩ := hg
  have hbp : b.objectPath = d.sysfs_path := h3 _ (tableLookup_mem hl)
  have hfound : (tableRemove st.sysfs_to_block d.sysfs_path).2 = true :=
    (tableRemove_found_iff _ _).mpr (mem_keys_of_lookup hl)
  rw [handle_uevent_remove_found st d hl]
  refine ⟨by simp [hfound], ?_, ?_⟩
  · show d.sysfs_path ∉ keys (tableRemove st.sysfs_to_block d.sysfs_path).1
    intro hmem
    exact ((mem_keys_tableRemove h1).mp hmem).2 rfl
  · show d.sysfs_path ∉ st.registry.erase b.objectPath
    rw [hbp]
    exact h2.not_mem_erase

/-- Witness for C4 at a concrete reachable state: the provider that has seen
a single add for `/sys/a`. -/
theorem remove_present_unexports_then_removes_witness :
    goodState
      (udisks_linux_provider_handle_uevent initialState "add" ⟨"/sys/a"⟩).1 ∧
    tableLookup
      (udisks_linux_provider_handle_uevent initialState "add" ⟨"/sys/a"⟩).1.sysfs_to_block
      "/sys/a" = some ⟨0, "/sys/a"⟩ ∧
    "/sys/a" ∉
      (udisks_linux_provider_handle_uevent
        (udisks_linux_provider_handle_uevent initialState "add" ⟨"/sys/a"⟩).1
        "remove" ⟨"/sys/a"⟩).1.registry :=
  ⟨by decide, by decide,
    (remove_present_unexports_then_removes
      (udisks_linux_provider_handle_uevent initialState "add" ⟨"/sys/a"⟩).1
      ⟨"/sys/a"⟩ ⟨0, "/sys/a"⟩ (by decide) (by decide)).2.2⟩

/-! ## Claim C5 -/

/-- C5: a remove uevent for a sysfs path absent from the map is a complete
no-op: the provider state (map and registry) is unchanged and no observable
call — in particular no unexport — is made, and nothing fails. -/
theorem remove_absent_is_noop (st : ProviderState) (d : GUdevDevice)
    (hl : tableLookup st.sysfs_to_block d.sysfs_path = none) :
    (udisks_linux_provider_handle_uevent st "remove" d).1 = st ∧
    (udisks_linux_provider_handle_uevent st "remove" d).2 = [] := by
  rw [handle_uevent_remove_absent st d hl]
  exact ⟨rfl, rfl⟩

/-- Witness for C5: removing a never-added path from the fresh provider. -/
theorem remove_absent_is_noop_witness :
    tableLookup initialState.sysfs_to_block "/sys/ghost" = none ∧
    (udisks_linux_provider_handle_uevent initialState "remove" ⟨"/sys/ghost"⟩).1 =
      initialState ∧
    (udisks_linux_provider_handle_uevent initialState "remove" ⟨"/sys/ghost"⟩).2 = [] :=
  ⟨rfl,
    (remove_absent_is_noop initialState ⟨"/sys/ghost"⟩ rfl).1,
    (remove_absent_is_noop initialState ⟨"/sys/ghost"⟩ rfl).2⟩

/-! ## Claim C8 -/

/-- C8: a non-remove uevent (change, or add while already present) for a
sysfs path present in the map leaves the provider state — and hence the
mapped block handle and the registry — completely unchanged, and the only
observable call is the update of the existing block object: no construction
and no second export. -/
theorem change_while_present_updates_in_place (st : ProviderState) (a : String)
    (d : GUdevDevice) (b : UDisksLinuxBlock) (ha : a ≠ "remove")
    (hl : tableLookup st.sysfs_to_block d.sysfs_path = some b) :
    (udisks_linux_provider_handle_uevent st a d).1 = st ∧
    (udisks_linux_provider_handle_uevent st a d).2 = [Effect.updateCall b a d] := by
  rw [handle_uevent_else_found st d ha hl]
  exact ⟨rfl, rfl⟩

/-- Witness for C8: a change for `/sys/a` after it was added. -/
theorem change_while_present_updates_in_place_witness :
    (("change" : String) ≠ "remove") ∧
    tableLookup
      (udisks_linux_provider_handle_uevent initialState "add" ⟨"/sys/a"⟩).1.sysfs_to_block
      "/sys/a" = some ⟨0, "/sys/a"⟩ ∧
    (udisks_linux_provider_handle_uevent
      (udisks_linux_provider_handle_uevent initialState "add" ⟨"/sys/a"⟩).1
      "change" ⟨"/sys/a"⟩).1 =
      (udisks_linux_provider_handle_uevent initialState "add" ⟨"/sys/a"⟩).1 :=
  ⟨by decide, by decide,
    (change_while_present_updates_in_place
      (udisks_linux_provider_handle_uevent initialState "add" ⟨"/sys/a"⟩).1
      "change" ⟨"/sys/a"⟩ ⟨0, "/sys/a"⟩ (by decide) (by decide)).1⟩

/-! ## Claim C10 -/

/-- C10: on the remove path, whenever the preceding lookup found the sysfs
path, the `g_hash_table_remove` necessarily succeeds — the `g_warn_if_fail`
failure branch never appears in the trace, since nothing mutates the table
between the lookup and the removal. -/
theorem remove_warn_branch_unreachable (st : ProviderState) (d : GUdevDevice)
    (b : UDisksLinuxBlock)
    (hl : tableLookup st.sysfs_to_block d.sysfs_path = some b) :
    Effect.warnRemoveFailed ∉ (udisks_linux_provider_handle_uevent st "remove" d).2 := by
  have hfound : (tableRemove st.sysfs_to_block d.sysfs_path).2 = true :=
    (tableRemove_found_iff _ _).mpr (mem_keys_of_lookup hl)
  rw [handle_uevent_remove_found st d hl]
  simp [hfound]

/-- Witness for C10: removing `/sys/a` after it was added fires no warning. -/
theorem remove_warn_branch_unreachable_witness :
    tableLookup
      (udisks_linux_provider_handle_uevent initialState "add" ⟨"/sys/a"⟩).1.sysfs_to_block
      "/sys/a" = some ⟨0, "/sys/a"⟩ ∧
    Effect.warnRemoveFailed ∉
      (udisks_linux_provider_handle_uevent
        (udisks_linux_provider_handle_uevent initialState "add" ⟨"/sys/a"⟩).1
        "remove" ⟨"/sys/a"⟩).2 :=
  ⟨by decide,
    remove_warn_branch_unreachable
      (udisks_linux_provider_handle_uevent initialState "add" ⟨"/sys/a"⟩).1
      ⟨"/sys/a"⟩ ⟨0, "/sys/a"⟩ (by decide)⟩

/-! ## Claim C2

The spec demands that on the add path the map insertion happen before (or
atomically with) the registry export, so that an export is never issued
while the identity is still absent from the map.  `exportOnlyWhenPresent`
states exactly that over a handler invocation: every export call in the
trace is for an identity that either was already a key of the table at
handler entry or was inserted earlier in the same trace. -/

/-- The ordering discipline claimed by the spec for one handler invocation
starting from table `t`: no export of path `p` before `p` is a map key. -/
def exportOnlyWhenPresent (t : SysfsTable) (tr : List Effect) : Prop :=
  ∀ j : Fin tr.length, ∀ p : String, tr.get j = Effect.exportCall p →
    p ∈ keys t ∨ (tr.take j.val).any (isInsertFor p) = true

/-- C2 counterexample: on the very first add (`/sys/a` absent from the empty
map), the handler issues the export call *before* the map insertion, so the
export happens while the identity is still absent from the map. -/
theorem export_issued_while_absent_cex :
    ¬ exportOnlyWhenPresent initialState.sysfs_to_block
        (udisks_linux_provider_handle_uevent initialState "add" ⟨"/sys/a"⟩).2 := by
  intro h
  have h1 := h ⟨1, by decide⟩ "/sys/a" (by decide)
  rcases h1 with h1 | h1
  · exact absurd h1 (by decide)
  · exact absurd h1 (by decide)

/-- C2 amended: on an add/change event for an absent identity the handler
performs, in this order, object construction, the registry export, and only
then the map insertion; both the export and the insertion complete before
the handler returns, and on return the identity is mapped to the newly
constructed block. -/
theorem add_absent_construct_export_insert_order (st : ProviderState) (a : String)
    (d : GUdevDevice) (ha : a ≠ "remove")
    (hl : tableLookup st.sysfs_to_block d.sysfs_path = none) :
    (udisks_linux_provider_handle_uevent st a d).2 =
      [Effect.constructBlock (udisks_linux_block_new st.nextId d) d,
       Effect.exportCall d.sysfs_path,
       Effect.insertEntry d.sysfs_path (udisks_linux_block_new st.nextId d)] ∧
    tableLookup (udisks_linux_provider_handle_uevent st a d).1.sysfs_to_block
        d.sysfs_path = some (udisks_linux_block_new st.nextId d) := by
  rw [handle_uevent_else_absent st d ha hl]
  exact ⟨rfl, tableLookup_tableInsert_self _ _ _⟩

/-- Witness for the amended C2 at the fresh provider and `/sys/a`. -/
theorem add_absent_construct_export_insert_order_witness :
    (("add" : String) ≠ "remove") ∧
    tableLookup initialState.sysfs_to_block "/sys/a" = none ∧
    (udisks_linux_provider_handle_uevent initialState "add" ⟨"/sys/a"⟩).2 =
      [Effect.constructBlock ⟨0, "/sys/a"⟩ ⟨"/sys/a"⟩,
       Effect.exportCall "/sys/a",
       Effect.insertEntry "/sys/a" ⟨0, "/sys/a"⟩] :=
  ⟨by decide, rfl,
    (add_absent_construct_export_insert_order initialState "add" ⟨"/sys/a"⟩
      (by decide) rfl).1⟩

/-! ## Claim C3 -/

/-- C3: two consecutive adds of the same device from a state where its path
is absent produce exactly one map entry for that path, exactly one export
call and exactly one construction across both traces, and the second add's
only observable call is the update of the block constructed by the first
add — not a second construct/export. -/
theorem add_twice_collapses_to_update (st : ProviderState) (d : GUdevDevice)
    (hl : tableLookup st.sysfs_to_block d.sysfs_path = none) :
    (keys (udisks_linux_provider_handle_uevent
        (udisks_linux_provider_handle_uevent st "add" d).1 "add"
        d).1.sysfs_to_block).count d.sysfs_path = 1 ∧
    ((udisks_linux_provider_handle_uevent st "add" d).2 ++
      (udisks_linux_provider_handle_uevent
        (udisks_linux_provider_handle_uevent st "add" d).1 "add" d).2).countP
        isExportCall = 1 ∧
    ((udisks_linux_provider_handle_uevent st "add" d).2 ++
      (udisks_linux_provider_handle_uevent
        (udisks_linux_provider_handle_uevent st "add" d).1 "add" d).2).countP
        isConstructCall = 1 ∧
    (udisks_linux_provider_handle_uevent
        (udisks_linux_provider_handle_uevent st "add" d).1 "add" d).2 =
      [Effect.updateCall (udisks_linux_block_new st.nextId d) "add" d] := by
  have hadd : ("add" : String) ≠ "remove" := by decide
  have hkabs : d.sysfs_path ∉ keys st.sysfs_to_block :=
    (tableLookup_eq_none_iff _ _).mp hl
  have h1 := handle_uevent_else_absent st d hadd hl
  rw [h1]
  have hl2 : tableLookup
      (tableInsert st.sysfs_to_block d.sysfs_path
        (udisks_linux_block_new st.nextId d)) d.sysfs_path =
      some (udisks_linux_block_new st.nextId d) :=
    tableLookup_tableInsert_self _ _ _
  have h2 := handle_uevent_else_found
    ({ st with sysfs_to_block := tableInsert st.sysfs_to_block d.sysfs_path
                 (udisks_linux_block_new st.nextId d),
               registry := d.sysfs_path :: st.registry,
               nextId := st.nextId + 1 }) d hadd hl2
  rw [h2]
  refine ⟨?_, ?_, ?_, rfl⟩
  · show (keys (tableInsert st.sysfs_to_block d.sysfs_path
      (udisks_linux_block_new st.nextId d))).count d.sysfs_path = 1
    rw [tableInsert_of_not_mem _ hkabs, keys_append]
    simp [List.count_append, List.count_eq_zero_of_not_mem hkabs]
  · simp [List.countP_append, List.countP_cons, isExportCall]
  · simp [List.countP_append, List.countP_cons, isConstructCall]

/-- Witness for C3 at the fresh provider and `/sys/a`. -/
theorem add_twice_collapses_to_update_witness :
    tableLookup initialState.sysfs_to_block "/sys/a" = none ∧
    (udisks_linux_provider_handle_uevent
        (udisks_linux_provider_handle_uevent initialState "add" ⟨"/sys/a"⟩).1
        "add" ⟨"/sys/a"⟩).2 =
      [Effect.updateCall ⟨0, "/sys/a"⟩ "add" ⟨"/sys/a"⟩] :=
  ⟨rfl,
    (add_twice_collapses_to_update initialState ⟨"/sys/a"⟩ rfl).2.2.2⟩

/-! ## Claim C7 -/

/-- C7: every action string other than `"remove"` — including action strings
outside add/change/remove — takes the update-or-create path: if the sysfs
path is mapped the existing block is updated in place (state unchanged),
and if it is absent exactly one block is constructed and exported and the
path becomes mapped to it. -/
theorem non_remove_action_updates_or_creates (st : ProviderState) (a : String)
    (d : GUdevDevice) (ha : a ≠ "remove") :
    (∀ b, tableLookup st.sysfs_to_block d.sysfs_path = some b →
        udisks_linux_provider_handle_uevent st a d = (st, [Effect.updateCall b a d])) ∧
    (tableLookup st.sysfs_to_block d.sysfs_path = none →
        tableLookup (udisks_linux_provider_handle_uevent st a d).1.sysfs_to_block
            d.sysfs_path = some (udisks_linux_block_new st.nextId d) ∧
        (udisks_linux_provider_handle_uevent st a d).2.countP isConstructCall = 1 ∧
        (udisks_linux_provider_handle_uevent st a d).2.countP isExportCall = 1) := by
  constructor
  · intro b hb
    exact handle_uevent_else_found st d ha hb
  · intro hl
    rw [handle_uevent_else_absent st d ha hl]
    refine ⟨?_, ?_, ?_⟩
    · show tableLookup (tableInsert st.sysfs_to_block d.sysfs_path
        (udisks_linux_block_new st.nextId d)) d.sysfs_path =
        some (udisks_linux_block_new st.nextId d)
      exact tableLookup_tableInsert_self _ _ _
    · simp [List.countP_cons, isConstructCall]
    · simp [List.countP_cons, isExportCall]

/-- Witness for C7 with the unrecognized action `"frobnicate"` on the fresh
provider: the create path is taken. -/
theorem non_remove_action_updates_or_creates_witness :
    (("frobnicate" : String) ≠ "remove") ∧
    tableLookup initialState.sysfs_to_block "/sys/a" = none ∧
    tableLookup
      (udisks_linux_provider_handle_uevent initialState "frobnicate"
        ⟨"/sys/a"⟩).1.sysfs_to_block "/sys/a" = some ⟨0, "/sys/a"⟩ :=
  ⟨by decide, rfl,
    ((non_remove_action_updates_or_creates initialState "frobnicate" ⟨"/sys/a"⟩
      (by decide)).2 rfl).1⟩

/-! ## Frame lemmas: a uevent only touches its own identity -/

theorem count_keys_tableRemove_ne (t : SysfsTable) {p k : String} (h : p ≠ k) :
    (keys (tableRemove t k).1).count p = (keys t).count p := by
  induction t with
  | nil => simp [tableRemove]
  | cons hd tl ih =>
      obtain ⟨k', v⟩ := hd
      by_cases hk : k' = k
      · subst hk
        have e : tableRemove ((k', v) :: tl) k' = (tl, true) := by
          simp [tableRemove]
        rw [e]
        show List.count p (keys tl) = List.count p (keys ((k', v) :: tl))
        rw [keys_cons, List.count_cons_of_ne h]
      · simp only [tableRemove, if_neg hk, keys_cons]
        by_cases hp : p = k'
        · subst hp
          rw [List.count_cons_self, List.count_cons_self, ih]
        · rw [List.count_cons_of_ne hp, List.count_cons_of_ne hp, ih]

theorem count_keys_tableInsert_ne (t : SysfsTable) {p k : String}
    (v : UDisksLinuxBlock) (h : p ≠ k) :
    (keys (tableInsert t k v)).count p = (keys t).count p := by
  induction t with
  | nil => simp [tableInsert, List.count_cons_of_ne h]
  | cons hd tl ih =>
      obtain ⟨k', v'⟩ := hd
      by_cases hk : k' = k
      · subst hk
        have e : tableInsert ((k', v') :: tl) k' v = (k', v) :: tl := by
          simp [tableInsert]
        rw [e, keys_cons, keys_cons, List.count_cons_of_ne h]
      · simp only [tableInsert, if_neg hk, keys_cons]
        by_cases hp : p = k'
        · subst hp
          rw [List.count_cons_self, List.count_cons_self, ih]
        · rw [List.count_cons_of_ne hp, List.count_cons_of_ne hp, ih]

theorem handle_uevent_lookup_frame (st : ProviderState) (a : String) (d : GUdevDevice)
    {p : String} (hp : p ≠ d.sysfs_path) :
    tableLookup (udisks_linux_provider_handle_uevent st a d).1.sysfs_to_block p =
      tableLookup st.sysfs_to_block p := by
  by_cases ha : a = "remove"
  · subst ha
    cases hl : tableLookup st.sysfs_to_block d.sysfs_path with
    | none => rw [handle_uevent_remove_absent st d hl]
    | some b =>
        rw [handle_uevent_remove_found st d hl]
        exact tableLookup_tableRemove_ne _ hp
  · cases hl : tableLookup st.sysfs_to_block d.sysfs_path with
    | some b => rw [handle_uevent_else_found st d ha hl]
    | none =>
        rw [handle_uevent_else_absent st d ha hl]
        exact tableLookup_tableInsert_ne _ _ hp

theorem handle_uevent_count_frame (st : ProviderState) (a : String) (d : GUdevDevice)
    {p : String} (hp : p ≠ d.sysfs_path) :
    (keys (udisks_linux_provider_handle_uevent st a d).1.sysfs_to_block).count p =
      (keys st.sysfs_to_block).count p := by
  by_cases ha : a = "remove"
  · subst ha
    cases hl : tableLookup st.sysfs_to_block d.sysfs_path with
    | none => rw [handle_uevent_remove_absent st d hl]
    | some b =>
        rw [handle_uevent_remove_found st d hl]
        exact count_keys_tableRemove_ne _ hp
  · cases hl : tableLookup st.sysfs_to_block d.sysfs_path with
    | some b => rw [handle_uevent_else_found st d ha hl]
    | none =>
        rw [handle_uevent_else_absent st d ha hl]
        exact count_keys_tableInsert_ne _ _ hp

theorem handle_uevent_export_frame (st : ProviderState) (a : String) (d : GUdevDevice)
    {p : String} (hp : p ≠ d.sysfs_path) :
    (udisks_linux_provider_handle_uevent st a d).2.countP (isExportFor p) = 0 := by
  by_cases ha : a = "remove"
  · subst ha
    cases hl : tableLookup st.sysfs_to_block d.sysfs_path with
    | none =>
        rw [handle_uevent_remove_absent st d hl]
        rfl
    | some b =>
        rw [handle_uevent_remove_found st d hl]
        cases hr : (tableRemove st.sysfs_to_block d.sysfs_path).2 <;>
          simp [hr, List.countP_cons, List.countP_append, isExportFor]
  · cases hl : tableLookup st.sysfs_to_block d.sysfs_path with
    | some b =>
        rw [handle_uevent_else_found st d ha hl]
        simp [List.countP_cons, isExportFor]
    | none =>
        rw [handle_uevent_else_absent st d ha hl]
        simp [List.countP_cons, isExportFor, Ne.symm hp]

theorem handle_uevent_construct_frame (st : ProviderState) (a : String) (d : GUdevDevice)
    {p : String} (hp : p ≠ d.sysfs_path) :
    (udisks_linux_provider_handle_uevent st a d).2.countP (isConstructFor p) = 0 := by
  by_cases ha : a = "remove"
  · subst ha
    cases hl : tableLookup st.sysfs_to_block d.sysfs_path with
    | none =>
        rw [handle_uevent_remove_absent st d hl]
        rfl
    | some b =>
        rw [handle_uevent_remove_found st d hl]
        cases hr : (tableRemove st.sysfs_to_block d.sysfs_path).2 <;>
          simp [hr, List.countP_cons, List.countP_append, isConstructFor]
  · cases hl : tableLookup st.sysfs_to_block d.sysfs_path with
    | some b =>
        rw [handle_uevent_else_found st d ha hl]
        simp [List.countP_cons, isConstructFor]
    | none =>
        rw [handle_uevent_else_absent st d ha hl]
        simp [List.countP_cons, isConstructFor, Ne.symm hp]

theorem runEvents_lookup_frame (evs : List (String × GUdevDevice)) (st : ProviderState)
    {p : String} (hp : ∀ ev ∈ evs, p ≠ (Prod.snd ev).sysfs_path) :
    tableLookup (runEvents st evs).1.sysfs_to_block p = tableLookup st.sysfs_to_block p := by
  induction evs generalizing st with
  | nil => rfl
  | cons ev rest ih =>
      obtain ⟨a, d⟩ := ev
      show tableLookup (runEvents (udisks_linux_provider_handle_uevent st a d).1
        rest).1.sysfs_to_block p = _
      rw [ih _ (fun e he => hp e (List.mem_cons_of_mem _ he)),
        handle_uevent_lookup_frame st a d (hp (a, d) (List.mem_cons_self _ _))]

theorem runEvents_count_frame (evs : List (String × GUdevDevice)) (st : ProviderState)
    {p : String} (hp : ∀ ev ∈ evs, p ≠ (Prod.snd ev).sysfs_path) :
    (keys (runEvents st evs).1.sysfs_to_block).count p =
      (keys st.sysfs_to_block).count p := by
  induction evs generalizing st with
  | nil => rfl
  | cons ev rest ih =>
      obtain ⟨a, d⟩ := ev
      show (keys (runEvents (udisks_linux_provider_handle_uevent st a d).1
        rest).1.sysfs_to_block).count p = _
      rw [ih _ (fun e he => hp e (List.mem_cons_of_mem _ he)),
        handle_uevent_count_frame st a d (hp (a, d) (List.mem_cons_self _ _))]

theorem runEvents_export_frame (evs : List (String × GUdevDevice)) (st : ProviderState)
    {p : String} (hp : ∀ ev ∈ evs, p ≠ (Prod.snd ev).sysfs_path) :
    (runEvents st evs).2.countP (isExportFor p) = 0 := by
  induction evs generalizing st with
  | nil => rfl
  | cons ev rest ih =>
      obtain ⟨a, d⟩ := ev
      show ((udisks_linux_provider_handle_uevent st a d).2 ++
        (runEvents (udisks_linux_provider_handle_uevent st a d).1 rest).2).countP
          (isExportFor p) = 0
      rw [List.countP_append,
        ih _ (fun e he => hp e (List.mem_cons_of_mem _ he)),
        handle_uevent_export_frame st a d (hp (a, d) (List.mem_cons_self _ _))]

theorem runEvents_construct_frame (evs : List (String × GUdevDevice)) (st : ProviderState)
    {p : String} (hp : ∀ ev ∈ evs, p ≠ (Prod.snd ev).sysfs_path) :
    (runEvents st evs).2.countP (isConstructFor p) = 0 := by
  induction evs generalizing st with
  | nil => rfl
  | cons ev rest ih =>
      obtain ⟨a, d⟩ := ev
      show ((udisks_linux_provider_handle_uevent st a d).2 ++
        (runEvents (udisks_linux_provider_handle_uevent st a d).1 rest).2).countP
          (isConstructFor p) = 0
      rw [List.countP_append,
        ih _ (fun e he => hp e (List.mem_cons_of_mem _ he)),
        handle_uevent_construct_frame st a d (hp (a, d) (List.mem_cons_self _ _))]

theorem runEvents_cons (st : ProviderState) (a : String) (d : GUdevDevice)
    (evs : List (String × GUdevDevice)) :
    runEvents st ((a, d) :: evs) =
      ((runEvents (udisks_linux_provider_handle_uevent st a d).1 evs).1,
       (udisks_linux_provider_handle_uevent st a d).2 ++
         (runEvents (udisks_linux_provider_handle_uevent st a d).1 evs).2) := rfl

theorem handle_uevent_keys_subset (st : ProviderState) (a : String) (d : GUdevDevice)
    {p : String}
    (hp : p ∈ keys (udisks_linux_provider_handle_uevent st a d).1.sysfs_to_block) :
    p ∈ keys st.sysfs_to_block ∨ p = d.sysfs_path := by
  by_cases ha : a = "remove"
  · subst ha
    cases hl : tableLookup st.sysfs_to_block d.sysfs_path with
    | none =>
        rw [handle_uevent_remove_absent st d hl] at hp
        exact Or.inl hp
    | some b =>
        rw [handle_uevent_remove_found st d hl] at hp
        replace hp : p ∈ keys (tableRemove st.sysfs_to_block d.sysfs_path).1 := hp
        exact Or.inl ((keys_tableRemove_sublist _ _).subset hp)
  · cases hl : tableLookup st.sysfs_to_block d.sysfs_path with
    | some b =>
        rw [handle_uevent_else_found st d ha hl] at hp
        exact Or.inl hp
    | none =>
        rw [handle_uevent_else_absent st d ha hl] at hp
        replace hp : p ∈ keys (tableInsert st.sysfs_to_block d.sysfs_path
          (udisks_linux_block_new st.nextId d)) := hp
        rw [tableInsert_of_not_mem _ ((tableLookup_eq_none_iff _ _).mp hl),
          keys_append, List.mem_append] at hp
        rcases hp with hp | hp
        · exact Or.inl hp
        · simp only [keys_cons, keys_nil, List.mem_singleton] at hp
          exact Or.inr hp

theorem runEvents_keys_subset (evs : List (String × GUdevDevice)) (st : ProviderState)
    {p : String} (hp : p ∈ keys (runEvents st evs).1.sysfs_to_block) :
    p ∈ keys st.sysfs_to_block ∨ ∃ ev ∈ evs, p = (Prod.snd ev).sysfs_path := by
  induction evs generalizing st with
  | nil => exact Or.inl hp
  | cons ev rest ih =>
      obtain ⟨a, d⟩ := ev
      rw [runEvents_cons] at hp
      replace hp : p ∈ keys (runEvents
        (udisks_linux_provider_handle_uevent st a d).1 rest).1.sysfs_to_block := hp
      rcases ih _ hp with hp' | ⟨e, he, hee⟩
      · rcases handle_uevent_keys_subset st a d hp' with h | h
        · exact Or.inl h
        · exact Or.inr ⟨(a, d), List.mem_cons_self _ _, h⟩
      · exact Or.inr ⟨e, List.mem_cons_of_mem _ he, hee⟩

/-- Startup seeding, generalized over the starting state: if all enumerated
paths are pairwise distinct and absent from the starting table, each
enumerated device ends up with exactly one map entry, one export call and
one construction. -/
theorem seed_adds_general (devs : List GUdevDevice) (st : ProviderState)
    (hnd : (devs.map GUdevDevice.sysfs_path).Nodup)
    (habs : ∀ dv ∈ devs, tableLookup st.sysfs_to_block dv.sysfs_path = none) :
    ∀ dv ∈ devs,
      (keys (runEvents st (devs.map (fun x => ("add", x)))).1.sysfs_to_block).count
          dv.sysfs_path = 1 ∧
      (runEvents st (devs.map (fun x => ("add", x)))).2.countP
          (isExportFor dv.sysfs_path) = 1 ∧
      (runEvents st (devs.map (fun x => ("add", x)))).2.countP
          (isConstructFor dv.sysfs_path) = 1 := by
  induction devs generalizing st with
  | nil =>
      intro dv hdv
      exact absurd hdv (List.not_mem_nil dv)
  | cons d0 rest ih =>
      intro dv hdv
      have hadd : ("add" : String) ≠ "remove" := by decide
      have hl0 : tableLookup st.sysfs_to_block d0.sysfs_path = none :=
        habs d0 (List.mem_cons_self _ _)
      have hkabs : d0.sysfs_path ∉ keys st.sysfs_to_block :=
        (tableLookup_eq_none_iff _ _).mp hl0
      rw [List.map_cons] at hnd
      have hd0r : d0.sysfs_path ∉ rest.map GUdevDevice.sysfs_path :=
        (List.nodup_cons.mp hnd).1
      have hnd' : (rest.map GUdevDevice.sysfs_path).Nodup :=
        (List.nodup_cons.mp hnd).2
      have h1 := handle_uevent_else_absent st d0 hadd hl0
      rw [List.map_cons, runEvents_cons]
      rcases List.mem_cons.mp hdv with rfl | hdvr
      · -- the head device itself
        have hfr : ∀ ev ∈ rest.map (fun x => (("add" : String), x)),
            dv.sysfs_path ≠ (Prod.snd ev).sysfs_path := by
          intro ev hev
          rcases List.mem_map.mp hev with ⟨x, hx, rfl⟩
          intro he
          exact hd0r (by rw [he]; exact List.mem_map_of_mem _ hx)
        refine ⟨?_, ?_, ?_⟩
        · show (keys (runEvents (udisks_linux_provider_handle_uevent st "add"
            dv).1 (rest.map (fun x => ("add", x)))).1.sysfs_to_block).count
              dv.sysfs_path = 1
          rw [runEvents_count_frame _ _ hfr, h1]
          show (keys (tableInsert st.sysfs_to_block dv.sysfs_path
            (udisks_linux_block_new st.nextId dv))).count dv.sysfs_path = 1
          rw [tableInsert_of_not_mem _ hkabs, keys_append]
          simp [List.count_append, List.count_eq_zero_of_not_mem hkabs]
        · show ((udisks_linux_provider_handle_uevent st "add" dv).2 ++
            (runEvents (udisks_linux_provider_handle_uevent st "add" dv).1
              (rest.map (fun x => ("add", x)))).2).countP
                (isExportFor dv.sysfs_path) = 1
          rw [List.countP_append, runEvents_export_frame _ _ hfr, h1]
          show ([Effect.constructBlock (udisks_linux_block_new st.nextId dv) dv,
            Effect.exportCall dv.sysfs_path,
            Effect.insertEntry dv.sysfs_path
              (udisks_linux_block_new st.nextId dv)]).countP
                (isExportFor dv.sysfs_path) + 0 = 1
          simp [List.countP_cons, isExportFor]
        · show ((udisks_linux_provider_handle_uevent st "add" dv).2 ++
            (runEvents (udisks_linux_provider_handle_uevent st "add" dv).1
              (rest.map (fun x => ("add", x)))).2).countP
                (isConstructFor dv.sysfs_path) = 1
          rw [List.countP_append, runEvents_construct_frame _ _ hfr, h1]
          show ([Effect.constructBlock (udisks_linux_block_new st.nextId dv) dv,
            Effect.exportCall dv.sysfs_path,
            Effect.insertEntry dv.sysfs_path
              (udisks_linux_block_new st.nextId dv)]).countP
                (isConstructFor dv.sysfs_path) + 0 = 1
          simp [List.countP_cons, isConstructFor]
      · -- a device of the tail
        have hdvne : dv.sysfs_path ≠ d0.sysfs_path := by
          intro he
          exact hd0r (by rw [← he]; exact List.mem_map_of_mem _ hdvr)
        have habs' : ∀ x ∈ rest, tableLookup
            (udisks_linux_provider_handle_uevent st "add" d0).1.sysfs_to_block
            x.sysfs_path = none := by
          intro x hx
          have hxne : x.sysfs_path ≠ d0.sysfs_path := by
            intro he
            exact hd0r (by rw [← he]; exact List.mem_map_of_mem _ hx)
          rw [handle_uevent_lookup_frame st "add" d0 hxne]
          exact habs x (List.mem_cons_of_mem _ hx)
        have hrec := ih (udisks_linux_provider_handle_uevent st "add" d0).1
          hnd' habs' dv hdvr
        refine ⟨hrec.1, ?_, ?_⟩
        · rw [List.countP_append, hrec.2.1,
            handle_uevent_export_frame st "add" d0 hdvne]
        · rw [List.countP_append, hrec.2.2,
            handle_uevent_construct_frame st "add" d0 hdvne]

/-! ## Claim C6 -/

/-- C6: for any enumeration of initially present devices with pairwise
distinct sysfs paths (in any order), `constructed` handles each device as one
add uevent and yields exactly one map entry, one export call and one
construction per enumerated identity — and nothing else ends up in the
map. -/
theorem constructed_seeds_one_entry_per_device (devs : List GUdevDevice)
    (hnd : (devs.map GUdevDevice.sysfs_path).Nodup) :
    (∀ dv ∈ devs,
        (keys (udisks_linux_provider_constructed devs).1.sysfs_to_block).count
            dv.sysfs_path = 1 ∧
        (udisks_linux_provider_constructed devs).2.countP
            (isExportFor dv.sysfs_path) = 1 ∧
        (udisks_linux_provider_constructed devs).2.countP
            (isConstructFor dv.sysfs_path) = 1) ∧
    (∀ p ∈ keys (udisks_linux_provider_constructed devs).1.sysfs_to_block,
        p ∈ devs.map GUdevDevice.sysfs_path) := by
  constructor
  · intro dv hdv
    exact seed_adds_general devs initialState hnd (fun _ _ => rfl) dv hdv
  · intro p hp
    rcases runEvents_keys_subset _ initialState hp with hp' | ⟨e, he, hee⟩
    · exact absurd hp' (List.not_mem_nil p)
    · rcases List.mem_map.mp he with ⟨x, hx, rfl⟩
      rw [hee]
      exact List.mem_map_of_mem _ hx

/-- Witness for C6: the enumeration `/sys/a`, `/sys/b`. -/
theorem constructed_seeds_one_entry_per_device_witness :
    (([⟨"/sys/a"⟩, ⟨"/sys/b"⟩] : List GUdevDevice).map GUdevDevice.sysfs_path).Nodup ∧
    (keys (udisks_linux_provider_constructed
        [⟨"/sys/a"⟩, ⟨"/sys/b"⟩]).1.sysfs_to_block).count "/sys/a" = 1 ∧
    (udisks_linux_provider_constructed [⟨"/sys/a"⟩, ⟨"/sys/b"⟩]).2.countP
        (isExportFor "/sys/a") = 1 :=
  ⟨by decide,
    ((constructed_seeds_one_entry_per_device [⟨"/sys/a"⟩, ⟨"/sys/b"⟩] (by decide)).1
      ⟨"/sys/a"⟩ (by decide)).1,
    ((constructed_seeds_one_entry_per_device [⟨"/sys/a"⟩, ⟨"/sys/b"⟩] (by decide)).1
      ⟨"/sys/a"⟩ (by decide)).2.1⟩

/-! ## Claim C9 -/

/-- C9: provider construction checks the daemon handle: with an invalid
daemon handle it yields no provider at all (no partially constructed state),
and with a valid handle it yields the fully seeded provider, which moreover
satisfies the reachable-state invariant. -/
theorem provider_new_checks_daemon (daemon : UDisksDaemon)
    (enumeration : List GUdevDevice) :
    (daemon.is_daemon = false → udisks_linux_provider_new daemon enumeration = none) ∧
    (daemon.is_daemon = true →
        udisks_linux_provider_new daemon enumeration =
          some (udisks_linux_provider_constructed enumeration).1 ∧
        ∀ st, udisks_linux_provider_new daemon enumeration = some st →
          goodState st) := by
  constructor
  · intro h
    simp [udisks_linux_provider_new, h]
  · intro h
    constructor
    · simp [udisks_linux_provider_new, h]
    · intro st hst
      simp [udisks_linux_provider_new, h] at hst
      rw [← hst]
      exact runEvents_goodState _ _ initialState_goodState

/-- Witness for C9 at both an invalid and a valid daemon handle. -/
theorem provider_new_checks_daemon_witness :
    udisks_linux_provider_new ⟨false⟩ [] = none ∧
    udisks_linux_provider_new ⟨true⟩ [] =
      some (udisks_linux_provider_constructed []).1 :=
  ⟨(provider_new_checks_daemon ⟨false⟩ []).1 rfl,
    ((provider_new_checks_daemon ⟨true⟩ []).2 rfl).1⟩
